import Mathlib

/-!
Shallow embedding of the Neuro-Spin batch simulator / statistics aggregator
(src/App.tsx, with the outcome simulator modelled from the specification where
the engine source is absent).  JS numbers are embedded as rationals.
-/

namespace NeuroSpin

/-- Slot configuration record (spec §3; `types.ts` is absent from the sources). -/
structure SlotConfig where
  id : String
  name : String
  rtp : ℚ
  hitFreq : ℚ
  color : String
  deriving DecidableEq

/-- One simulated spin outcome (spec §3). -/
structure SpinResult where
  stake : ℚ
  win : ℚ
  multiplier : ℚ
  deriving DecidableEq

/-- The two-valued trend indicator stored in the statistics record. -/
inductive Trend where
  | up
  | down
  deriving DecidableEq

/-- Per-asset running statistics record (`SlotStats` in src/App.tsx). -/
structure SlotStats where
  liveRtp : ℚ
  totalSpins : ℕ
  totalStakes : ℚ
  totalWins : ℚ
  maxMultiplier : ℚ
  history : List SpinResult
  recentRtpHistory : List ℚ
  trend : Trend
  deriving DecidableEq

/-- JS `Array.prototype.slice(-n)`: the last `n` elements of a list. -/
def takeLast (n : ℕ) (l : List α) : List α := l.drop (l.length - n)

/-- JS `Math.max(...l)`; `none` plays the role of `-Infinity` for an empty list. -/
def jsMaxList : List ℚ → Option ℚ
  | [] => none
  | x :: xs => some (xs.foldl max x)

/-- Sum of the batch stakes: `batchResults.reduce((sum, r) => sum + r.stake, 0)` (src/App.tsx line 43). -/
def batchStakes (b : List SpinResult) : ℚ := (b.map (fun r => r.stake)).sum

/-- Sum of the batch wins: `batchResults.reduce((sum, r) => sum + r.win, 0)` (src/App.tsx line 44). -/
def batchWins (b : List SpinResult) : ℚ := (b.map (fun r => r.win)).sum

/-- Largest multiplier of the batch: `Math.max(...batchResults.map(r => r.multiplier))` (src/App.tsx line 45). -/
def batchMaxMulti (b : List SpinResult) : Option ℚ :=
  jsMaxList (b.map (fun r => r.multiplier))

/-- The `newLiveRtp` ternary (src/App.tsx lines 51–53). -/
def newLiveRtp (s : SlotStats) (c : SlotConfig) (b : List SpinResult) : ℚ :=
  if 0 < s.totalStakes + batchStakes b then
    (s.totalWins + batchWins b) / (s.totalStakes + batchStakes b) * 100
  else c.rtp

/-- The per-asset statistics update of `processSimulations`
(src/App.tsx lines 43–68).  The `batchMaxMulti` of an empty batch is JS
`-Infinity` (`none` here), which the outer `Math.max` absorbs, leaving
`maxMultiplier` unchanged. -/
def applyBatch (s : SlotStats) (c : SlotConfig) (b : List SpinResult) : SlotStats :=
  { s with
    liveRtp := newLiveRtp s c b
    totalSpins := s.totalSpins + b.length
    totalStakes := s.totalStakes + batchStakes b
    totalWins := s.totalWins + batchWins b
    maxMultiplier :=
      match batchMaxMulti b with
      | none => s.maxMultiplier
      | some bm => max s.maxMultiplier bm
    history := takeLast 100 (s.history ++ b)
    recentRtpHistory := takeLast 30 (s.recentRtpHistory ++ [newLiveRtp s c b])
    trend := if newLiveRtp s c b > s.liveRtp then Trend.up else Trend.down }

/-- Folding a sequence of batches into a record, one `applyBatch` per tick. -/
def applyBatches (s : SlotStats) (c : SlotConfig) (bs : List (List SpinResult)) : SlotStats :=
  bs.foldl (fun st b => applyBatch st c b) s

/-- The successive `liveRtp` snapshots produced while folding `bs`. -/
def rtpSnapshots (s : SlotStats) (c : SlotConfig) : List (List SpinResult) → List ℚ
  | [] => []
  | b :: bs => newLiveRtp s c b :: rtpSnapshots (applyBatch s c b) c bs

/-- One aggregation tick over the statistics map (src/App.tsx lines 31–73).
`sim` abstracts `runBatchSimulation(config, 100, globalStake)`.  An asset id
absent from the catalog is skipped (`if (!config) return;`, line 37).  A
catalog-known active id with no statistics record aborts the tick (`none`),
mirroring the TypeError that JS raises reading a field of `undefined`. -/
def tick (catalog : List SlotConfig) (activeSlots : List String)
    (sim : SlotConfig → List SpinResult) (statsMap : String → Option SlotStats) :
    Option (String → Option SlotStats) :=
  activeSlots.foldlM
    (fun nextMap slotId =>
      match catalog.find? (fun s => s.id == slotId) with
      | none => some nextMap
      | some config =>
        match nextMap slotId with
        | none => none
        | some currentStats =>
          some (fun k =>
            if k = slotId then some (applyBatch currentStats config (sim config))
            else nextMap k))
    statsMap

/-- Modelled from the spec: `services/simulationEngine.ts` (the Outcome
Simulator invoked as `runBatchSimulation` in src/App.tsx line 41) is absent
from the sources.  Spec §4.1: a spin is a hit with probability `hitFreq`,
decided by the random draw `r ∈ [0,1)`; a miss pays 0; on a hit the win has
mean `stake · rtp / (100 · hitFreq)`, so that E[win]/stake × 100 = rtp.  The
exact win-size shape is left open by the spec (§9), so the mean-preserving
draw is used. -/
def simulateSpin (c : SlotConfig) (stake : ℚ) (r : ℚ) : SpinResult :=
  if r < c.hitFreq then
    { stake := stake
      win := stake * (c.rtp / (100 * c.hitFreq))
      multiplier := c.rtp / (100 * c.hitFreq) }
  else
    { stake := stake, win := 0, multiplier := 0 }

/-- Modelled from the spec: the batch variant of the absent engine
(`simulateBatch(config, count, stake)`, spec §4.1), one independent
`simulateSpin` per supplied random draw, in draw order. -/
def simulateBatch (c : SlotConfig) (stake : ℚ) (seeds : List ℚ) : List SpinResult :=
  seeds.map (simulateSpin c stake)

/-- The uniform grid `0/n, 1/n, …, (n-1)/n` of random draws: running the
simulator once at every grid point realises the uniform expectation exactly. -/
def seedGrid (n : ℕ) : List ℚ :=
  (List.range n).map (fun k : ℕ => (k : ℚ) / (n : ℚ))

/-- Shared concrete example configuration. -/
def sampleConfig : SlotConfig :=
  { id := "book-of-dead", name := "Book of Dead", rtp := 96, hitFreq := 1/4, color := "#e86a17" }

/-- Shared concrete example spin. -/
def sampleSpin : SpinResult := { stake := 1, win := 2, multiplier := 2 }

/-- Shared concrete example statistics record (freshly seeded: empty windows,
zero totals, `liveRtp` at the theoretical value). -/
def sampleStats : SlotStats :=
  { liveRtp := 96, totalSpins := 0, totalStakes := 0, totalWins := 0,
    maxMultiplier := 0, history := [], recentRtpHistory := [], trend := Trend.down }

/-! ### Window helper lemmas -/

lemma takeLast_eq_self {n : ℕ} {l : List α} (h : l.length ≤ n) : takeLast n l = l := by
  unfold takeLast
  rw [Nat.sub_eq_zero_of_le h, List.drop_zero]

lemma length_takeLast_le (n : ℕ) (l : List α) : (takeLast n l).length ≤ n := by
  unfold takeLast
  rw [List.length_drop]
  omega

lemma takeLast_append_takeLast (n : ℕ) (xs ys : List α) :
    takeLast n (takeLast n xs ++ ys) = takeLast n (xs ++ ys) := by
  unfold takeLast
  rcases le_or_lt xs.length n with h | h
  · rw [Nat.sub_eq_zero_of_le h, List.drop_zero]
  · have hA : (List.drop (xs.length - n) xs).length = n := by
      rw [List.length_drop]
      omega
    have hL : (List.drop (xs.length - n) xs ++ ys).length - n = ys.length := by
      rw [List.length_append, hA]
      omega
    rcases le_or_lt ys.length n with h2 | h2
    · have hR : (xs ++ ys).length - n = (xs.length - n) + ys.length := by
        rw [List.length_append]
        omega
      rw [hL, hR, List.drop_append_of_le_length (by rw [hA]; exact h2),
        List.drop_append_of_le_length (by omega), List.drop_drop]
    · have hR : (xs ++ ys).length - n = xs.length + (ys.length - n) := by
        rw [List.length_append]
        omega
      have lhs_eq : (List.drop (xs.length - n) xs ++ ys).drop
          ((List.drop (xs.length - n) xs ++ ys).length - n) = ys.drop (ys.length - n) := by
        rw [hL, List.drop_append_eq_append_drop,
          List.drop_eq_nil_of_le (by rw [hA]; omega), hA, List.nil_append]
      have rhs_eq : (xs ++ ys).drop ((xs ++ ys).length - n) = ys.drop (ys.length - n) := by
        rw [hR, List.drop_append_eq_append_drop,
          List.drop_eq_nil_of_le (by omega), List.nil_append, Nat.add_sub_cancel_left]
      rw [lhs_eq, rhs_eq]

lemma getLast?_takeLast_concat (n : ℕ) (hn : 0 < n) (xs : List α) (a : α) :
    (takeLast n (xs ++ [a])).getLast? = some a ∧ takeLast n (xs ++ [a]) ≠ [] := by
  unfold takeLast
  have hlen : (xs ++ [a]).length - n ≤ xs.length := by
    rw [List.length_append]
    simp only [List.length_cons, List.length_nil]
    omega
  rw [List.drop_append_of_le_length hlen]
  refine ⟨List.getLast?_concat _, ?_⟩
  simp

/-! ### C6: trend is up exactly when the new liveRtp strictly exceeds the old -/

/-- C6: after every `applyBatch` call, `trend` is `up` if and only if the new
`liveRtp` is strictly greater than the previously stored `liveRtp`; in every
other case, ties included, `trend` is `down`. -/
theorem trend_up_iff_strict_increase (s : SlotStats) (c : SlotConfig) (b : List SpinResult) :
    ((applyBatch s c b).trend = Trend.up ↔ s.liveRtp < (applyBatch s c b).liveRtp)
    ∧ ((applyBatch s c b).trend = Trend.down ↔ ¬ s.liveRtp < (applyBatch s c b).liveRtp) := by
  have hl : (applyBatch s c b).liveRtp = newLiveRtp s c b := rfl
  have ht : (applyBatch s c b).trend
      = if newLiveRtp s c b > s.liveRtp then Trend.up else Trend.down := rfl
  rw [hl, ht]
  by_cases h : s.liveRtp < newLiveRtp s c b
  · rw [if_pos h]
    simp [h]
  · rw [if_neg h]
    simp [h]

/-! ### C7: empty batches are processed silently, no error is signalled -/

/-- C7 counterexample: invoking the aggregator with an empty batch on a fresh
record signals no error at all; it silently returns an updated record — the
recomputed `liveRtp` snapshot is appended to `recentRtpHistory` while every
accumulator stays put. -/
theorem applyBatch_empty_cex :
    applyBatch sampleStats sampleConfig []
      = { liveRtp := 96, totalSpins := 0, totalStakes := 0, totalWins := 0,
          maxMultiplier := 0, history := [], recentRtpHistory := [96],
          trend := Trend.down } := by
  norm_num [applyBatch, sampleStats, sampleConfig, newLiveRtp, batchStakes, batchWins,
    batchMaxMulti, jsMaxList, takeLast]

/-- C7 amended: an empty batch is not rejected; `applyBatch` silently returns a
record whose accumulators, `maxMultiplier` (JS `Math.max()` of nothing is
`-Infinity`, absorbed by the outer max) and history window are unchanged, while
the recomputed `liveRtp` is still appended to `recentRtpHistory` and `trend`
is recomputed. -/
theorem applyBatch_empty_silent (s : SlotStats) (c : SlotConfig) :
    (applyBatch s c []).totalSpins = s.totalSpins
    ∧ (applyBatch s c []).totalStakes = s.totalStakes
    ∧ (applyBatch s c []).totalWins = s.totalWins
    ∧ (applyBatch s c []).maxMultiplier = s.maxMultiplier
    ∧ (applyBatch s c []).history = takeLast 100 s.history
    ∧ (applyBatch s c []).liveRtp
        = (if 0 < s.totalStakes then s.totalWins / s.totalStakes * 100 else c.rtp)
    ∧ (applyBatch s c []).recentRtpHistory
        = takeLast 30 (s.recentRtpHistory ++ [(applyBatch s c []).liveRtp]) := by
  refine ⟨rfl, ?_, ?_, rfl, ?_, ?_, rfl⟩
  · show s.totalStakes + batchStakes [] = s.totalStakes
    simp [batchStakes]
  · show s.totalWins + batchWins [] = s.totalWins
    simp [batchWins]
  · show takeLast 100 (s.history ++ []) = takeLast 100 s.history
    rw [List.append_nil]
  · show newLiveRtp s c [] = _
    unfold newLiveRtp
    simp [batchStakes, batchWins]

/-! ### C2: liveRtp derivation and theoretical-RTP fallback -/

lemma applyBatches_zero_stakes (c : SlotConfig) :
    ∀ (bs : List (List SpinResult)) (s : SlotStats), s.totalStakes = 0 → s.liveRtp = c.rtp →
      (∀ batch ∈ bs, batchStakes batch = 0) →
      (applyBatches s c bs).liveRtp = c.rtp ∧ (applyBatches s c bs).totalStakes = 0
  | [], _, h1, h2, _ => ⟨h2, h1⟩
  | b :: bs, s, h1, h2, h3 => by
    have hsum : s.totalStakes + batchStakes b = 0 := by
      rw [h1, h3 b (List.mem_cons_self b bs), add_zero]
    have hst : (applyBatch s c b).totalStakes = 0 := hsum
    have hrtp : (applyBatch s c b).liveRtp = c.rtp := by
      show newLiveRtp s c b = c.rtp
      simp only [newLiveRtp]
      rw [if_neg]
      rw [hsum]
      exact lt_irrefl 0
    exact applyBatches_zero_stakes c bs (applyBatch s c b) hst hrtp
      (fun batch hbm => h3 batch (List.mem_cons_of_mem b hbm))

/-- C2: after every `applyBatch` call the stored `liveRtp` equals
`totalWins / totalStakes × 100` whenever `totalStakes > 0` and equals the
configuration's theoretical `rtp` whenever `totalStakes = 0`; and starting
from `totalStakes = 0` (with `liveRtp` seeded at the theoretical value),
`liveRtp` stays equal to `config.rtp` as long as every applied batch has zero
total stake. -/
theorem liveRtp_invariant (s : SlotStats) (c : SlotConfig) (b : List SpinResult) :
    (0 < (applyBatch s c b).totalStakes →
      (applyBatch s c b).liveRtp
        = (applyBatch s c b).totalWins / (applyBatch s c b).totalStakes * 100)
    ∧ ((applyBatch s c b).totalStakes = 0 → (applyBatch s c b).liveRtp = c.rtp)
    ∧ (∀ bs : List (List SpinResult), s.totalStakes = 0 → s.liveRtp = c.rtp →
        (∀ batch ∈ bs, batchStakes batch = 0) → (applyBatches s c bs).liveRtp = c.rtp) := by
  refine ⟨?_, ?_, ?_⟩
  · intro h
    have h0 : 0 < s.totalStakes + batchStakes b := h
    show newLiveRtp s c b
      = (s.totalWins + batchWins b) / (s.totalStakes + batchStakes b) * 100
    simp only [newLiveRtp]
    rw [if_pos h0]
  · intro h
    have h0 : s.totalStakes + batchStakes b = 0 := h
    show newLiveRtp s c b = c.rtp
    simp only [newLiveRtp]
    rw [if_neg]
    rw [h0]
    exact lt_irrefl 0
  · intro bs h1 h2 h3
    exact (applyBatches_zero_stakes c bs s h1 h2 h3).1

/-- C2 witness at concrete inputs. -/
theorem liveRtp_invariant_witness :
    (applyBatch sampleStats sampleConfig [sampleSpin]).liveRtp
      = (applyBatch sampleStats sampleConfig [sampleSpin]).totalWins
        / (applyBatch sampleStats sampleConfig [sampleSpin]).totalStakes * 100
    ∧ (applyBatches sampleStats sampleConfig [[], []]).liveRtp = sampleConfig.rtp :=
  ⟨(liveRtp_invariant sampleStats sampleConfig [sampleSpin]).1
      (by norm_num [applyBatch, sampleStats, batchStakes, sampleSpin]),
   (liveRtp_invariant sampleStats sampleConfig []).2.2 [[], []]
      (by norm_num [sampleStats]) (by norm_num [sampleStats, sampleConfig])
      (by simp [batchStakes])⟩

/-! ### C4: accumulators never decrease -/

/-- C4: a single `applyBatch` call on a batch of spins with non-negative
`stake`, `win` and `multiplier` never decreases `totalSpins`, `totalStakes`,
`totalWins` or `maxMultiplier`; applied at every step of a call sequence this
makes all four accumulators non-decreasing across the sequence. -/
theorem accumulators_monotone (s : SlotStats) (c : SlotConfig) (b : List SpinResult)
    (h : ∀ r ∈ b, 0 ≤ r.stake ∧ 0 ≤ r.win ∧ 0 ≤ r.multiplier) :
    s.totalSpins ≤ (applyBatch s c b).totalSpins
    ∧ s.totalStakes ≤ (applyBatch s c b).totalStakes
    ∧ s.totalWins ≤ (applyBatch s c b).totalWins
    ∧ s.maxMultiplier ≤ (applyBatch s c b).maxMultiplier := by
  refine ⟨Nat.le_add_right _ _, ?_, ?_, ?_⟩
  · show s.totalStakes ≤ s.totalStakes + batchStakes b
    have hnn : 0 ≤ batchStakes b := by
      apply List.sum_nonneg
      intro x hx
      rcases List.mem_map.mp hx with ⟨r, hr, rfl⟩
      exact (h r hr).1
    linarith
  · show s.totalWins ≤ s.totalWins + batchWins b
    have hnn : 0 ≤ batchWins b := by
      apply List.sum_nonneg
      intro x hx
      rcases List.mem_map.mp hx with ⟨r, hr, rfl⟩
      exact (h r hr).2.1
    linarith
  · show s.maxMultiplier
      ≤ (match batchMaxMulti b with
          | none => s.maxMultiplier
          | some bm => max s.maxMultiplier bm)
    cases hm : batchMaxMulti b with
    | none => exact le_refl _
    | some bm => exact le_max_left _ _

/-- C4 witness at concrete inputs. -/
theorem accumulators_monotone_witness :
    (∀ r ∈ [sampleSpin], 0 ≤ r.stake ∧ 0 ≤ r.win ∧ 0 ≤ r.multiplier)
    ∧ sampleStats.totalSpins ≤ (applyBatch sampleStats sampleConfig [sampleSpin]).totalSpins
    ∧ sampleStats.totalStakes ≤ (applyBatch sampleStats sampleConfig [sampleSpin]).totalStakes
    ∧ sampleStats.totalWins ≤ (applyBatch sampleStats sampleConfig [sampleSpin]).totalWins
    ∧ sampleStats.maxMultiplier
        ≤ (applyBatch sampleStats sampleConfig [sampleSpin]).maxMultiplier :=
  ⟨by decide, accumulators_monotone sampleStats sampleConfig [sampleSpin] (by decide)⟩

/-! ### C5: exact deltas of one aggregation step -/

lemma foldl_max_coe (xs : List ℚ) : ∀ a : ℚ,
    ((xs.foldl max a : ℚ) : WithBot ℚ) = max (↑a) xs.maximum := by
  induction xs with
  | nil =>
    intro a
    rw [List.foldl_nil, List.maximum_nil]
    exact (max_eq_left bot_le).symm
  | cons b xs ih =>
    intro a
    rw [List.foldl_cons, ih, WithBot.coe_max, List.maximum_cons, max_assoc]

lemma jsMaxList_of_maximum {l : List ℚ} {M : ℚ} (h : l.maximum = some M) :
    jsMaxList l = some M := by
  cases l with
  | nil =>
    rw [List.maximum_nil] at h
    exact absurd h (by simp)
  | cons a xs =>
    show some (xs.foldl max a) = some M
    have hcoe : ((xs.foldl max a : ℚ) : WithBot ℚ) = ((M : ℚ) : WithBot ℚ) := by
      rw [foldl_max_coe, ← List.maximum_cons, h]
      rfl
    rw [WithBot.coe_inj.mp hcoe]

/-- C5: a single `applyBatch` call with a non-empty batch increases
`totalSpins` by exactly the batch length, `totalStakes` by exactly the sum of
the batch stakes, `totalWins` by exactly the sum of the batch wins, and sets
`maxMultiplier` to the maximum of its previous value and the largest
multiplier in the batch. -/
theorem applyBatch_exact_deltas (s : SlotStats) (c : SlotConfig) (b : List SpinResult)
    (_hb : b ≠ []) (M : ℚ)
    (hM : (b.map (fun r => r.multiplier)).maximum = some M) :
    (applyBatch s c b).totalSpins = s.totalSpins + b.length
    ∧ (applyBatch s c b).totalStakes = s.totalStakes + (b.map (fun r => r.stake)).sum
    ∧ (applyBatch s c b).totalWins = s.totalWins + (b.map (fun r => r.win)).sum
    ∧ (applyBatch s c b).maxMultiplier = max s.maxMultiplier M := by
  refine ⟨rfl, rfl, rfl, ?_⟩
  have hbm : batchMaxMulti b = some M := by
    simp only [batchMaxMulti]
    exact jsMaxList_of_maximum hM
  show (match batchMaxMulti b with
        | none => s.maxMultiplier
        | some bm => max s.maxMultiplier bm) = max s.maxMultiplier M
  rw [hbm]

/-- C5 witness at concrete inputs. -/
theorem applyBatch_exact_deltas_witness :
    ([sampleSpin] ≠ ([] : List SpinResult))
    ∧ (([sampleSpin].map (fun r => r.multiplier)).maximum = some 2)
    ∧ (applyBatch sampleStats sampleConfig [sampleSpin]).totalSpins
        = sampleStats.totalSpins + 1
    ∧ (applyBatch sampleStats sampleConfig [sampleSpin]).maxMultiplier
        = max sampleStats.maxMultiplier 2 :=
  ⟨by decide, by decide,
   (applyBatch_exact_deltas sampleStats sampleConfig [sampleSpin] (by decide) 2 (by decide)).1,
   (applyBatch_exact_deltas sampleStats sampleConfig [sampleSpin] (by decide) 2 (by decide)).2.2.2⟩

/-! ### C9: the appended RTP snapshot is exactly the stored liveRtp -/

/-- C9: after every `applyBatch` call with a non-empty batch,
`recentRtpHistory` is non-empty and its last element is exactly the `liveRtp`
value stored by that same update. -/
theorem recentRtpHistory_last (s : SlotStats) (c : SlotConfig) (b : List SpinResult)
    (_hb : b ≠ []) :
    (applyBatch s c b).recentRtpHistory ≠ []
    ∧ (applyBatch s c b).recentRtpHistory.getLast?
        = some ((applyBatch s c b).liveRtp) := by
  have h := getLast?_takeLast_concat 30 (by norm_num)
    s.recentRtpHistory (newLiveRtp s c b)
  exact ⟨h.2, h.1⟩

/-- C9 witness at concrete inputs. -/
theorem recentRtpHistory_last_witness :
    ([sampleSpin] ≠ ([] : List SpinResult))
    ∧ (applyBatch sampleStats sampleConfig [sampleSpin]).recentRtpHistory ≠ []
    ∧ (applyBatch sampleStats sampleConfig [sampleSpin]).recentRtpHistory.getLast?
        = some ((applyBatch sampleStats sampleConfig [sampleSpin]).liveRtp) :=
  ⟨by decide,
   (recentRtpHistory_last sampleStats sampleConfig [sampleSpin] (by decide)).1,
   (recentRtpHistory_last sampleStats sampleConfig [sampleSpin] (by decide)).2⟩

/-! ### C3: bounded rolling windows hold exactly the most recent elements -/

lemma applyBatches_history (c : SlotConfig) :
    ∀ (bs : List (List SpinResult)) (s : SlotStats), s.history.length ≤ 100 →
      (applyBatches s c bs).history = takeLast 100 (s.history ++ bs.flatten)
  | [], s, h => by
    show s.history = takeLast 100 (s.history ++ [])
    rw [List.append_nil, takeLast_eq_self h]
  | b :: bs, s, h => by
    have hstep : (applyBatch s c b).history = takeLast 100 (s.history ++ b) := rfl
    have hlen : (applyBatch s c b).history.length ≤ 100 := by
      rw [hstep]
      exact length_takeLast_le _ _
    have ih := applyBatches_history c bs (applyBatch s c b) hlen
    show (applyBatches (applyBatch s c b) c bs).history = _
    rw [ih, hstep, takeLast_append_takeLast, List.append_assoc, List.flatten_cons]

lemma applyBatches_rtpHistory (c : SlotConfig) :
    ∀ (bs : List (List SpinResult)) (s : SlotStats), s.recentRtpHistory.length ≤ 30 →
      (applyBatches s c bs).recentRtpHistory
        = takeLast 30 (s.recentRtpHistory ++ rtpSnapshots s c bs)
  | [], s, h => by
    show s.recentRtpHistory = takeLast 30 (s.recentRtpHistory ++ rtpSnapshots s c [])
    rw [rtpSnapshots, List.append_nil, takeLast_eq_self h]
  | b :: bs, s, h => by
    have hstep : (applyBatch s c b).recentRtpHistory
        = takeLast 30 (s.recentRtpHistory ++ [newLiveRtp s c b]) := rfl
    have hlen : (applyBatch s c b).recentRtpHistory.length ≤ 30 := by
      rw [hstep]
      exact length_takeLast_le _ _
    have ih := applyBatches_rtpHistory c bs (applyBatch s c b) hlen
    show (applyBatches (applyBatch s c b) c bs).recentRtpHistory = _
    rw [ih, hstep, takeLast_append_takeLast, List.append_assoc, rtpSnapshots]
    rfl

/-- C3: after any sequence of `applyBatch` calls starting from a record with
empty windows, `history` is exactly the last-100 suffix of all appended spins
in append order and `recentRtpHistory` is exactly the last-30 suffix of all
`liveRtp` snapshots in append order; in particular both stay within their
capacities, the oldest elements being evicted first. -/
theorem bounded_windows (c : SlotConfig) (s : SlotStats) (bs : List (List SpinResult))
    (hh : s.history = []) (hr : s.recentRtpHistory = []) :
    (applyBatches s c bs).history = takeLast 100 bs.flatten
    ∧ (applyBatches s c bs).history.length ≤ 100
    ∧ (applyBatches s c bs).recentRtpHistory = takeLast 30 (rtpSnapshots s c bs)
    ∧ (applyBatches s c bs).recentRtpHistory.length ≤ 30 := by
  have h1 := applyBatches_history c bs s (by rw [hh]; simp)
  have h2 := applyBatches_rtpHistory c bs s (by rw [hr]; simp)
  rw [hh, List.nil_append] at h1
  rw [hr, List.nil_append] at h2
  refine ⟨h1, ?_, h2, ?_⟩
  · rw [h1]
    exact length_takeLast_le _ _
  · rw [h2]
    exact length_takeLast_le _ _

/-- C3 witness at concrete inputs. -/
theorem bounded_windows_witness :
    sampleStats.history = []
    ∧ sampleStats.recentRtpHistory = []
    ∧ ((applyBatches sampleStats sampleConfig [[sampleSpin]]).history
        = takeLast 100 ([[sampleSpin]] : List (List SpinResult)).flatten
      ∧ (applyBatches sampleStats sampleConfig [[sampleSpin]]).history.length ≤ 100
      ∧ (applyBatches sampleStats sampleConfig [[sampleSpin]]).recentRtpHistory
          = takeLast 30 (rtpSnapshots sampleStats sampleConfig [[sampleSpin]])
      ∧ (applyBatches sampleStats sampleConfig [[sampleSpin]]).recentRtpHistory.length ≤ 30) :=
  ⟨rfl, rfl, bounded_windows sampleConfig sampleStats [[sampleSpin]] rfl rfl⟩

/-! ### Tick-level lemmas: unknown assets and the frame of one tick -/

lemma tick_cons (catalog : List SlotConfig) (sim : SlotConfig → List SpinResult)
    (x : String) (active : List String) (m : String → Option SlotStats) :
    tick catalog (x :: active) sim m
      = Option.bind
          (match catalog.find? (fun s => s.id == x) with
            | none => some m
            | some config =>
              match m x with
              | none => none
              | some currentStats =>
                some (fun k =>
                  if k = x then some (applyBatch currentStats config (sim config))
                  else m k))
          (fun m2 => tick catalog active sim m2) := rfl

lemma tick_frame_aux (catalog : List SlotConfig) (sim : SlotConfig → List SpinResult) :
    ∀ (active : List String) (m r : String → Option SlotStats) (k : String),
      tick catalog active sim m = some r →
      (k ∉ active ∨ ∀ cfg ∈ catalog, cfg.id ≠ k) → r k = m k
  | [], m, r, k, hres, _ => by
    have hmr : some m = some r := hres
    rw [← Option.some.inj hmr]
  | x :: active, m, r, k, hres, hk => by
    rw [tick_cons] at hres
    cases hfind : catalog.find? (fun s => s.id == x) with
    | none =>
      rw [hfind] at hres
      have hrec : tick catalog active sim m = some r := hres
      have hk2 : k ∉ active ∨ ∀ cfg ∈ catalog, cfg.id ≠ k := by
        rcases hk with hk | hk
        · exact Or.inl (fun hmem => hk (List.mem_cons_of_mem x hmem))
        · exact Or.inr hk
      exact tick_frame_aux catalog sim active m r k hrec hk2
    | some config =>
      rw [hfind] at hres
      cases hmx : m x with
      | none =>
        rw [hmx] at hres
        exact absurd hres (by simp)
      | some currentStats =>
        rw [hmx] at hres
        have hrec : tick catalog active sim
            (fun j => if j = x then some (applyBatch currentStats config (sim config))
              else m j) = some r := hres
        have hkx : k ≠ x := by
          rcases hk with hk | hk
          · intro he
            exact hk (he ▸ List.mem_cons_self x active)
          · intro he
            have hp := @List.find?_some _ (fun s : SlotConfig => s.id == x) config
              catalog hfind
            have hidx : config.id = x := eq_of_beq hp
            exact hk config (List.mem_of_find?_eq_some hfind) (hidx.trans he.symm)
        have hk2 : k ∉ active ∨ ∀ cfg ∈ catalog, cfg.id ≠ k := by
          rcases hk with hk | hk
          · exact Or.inl (fun hmem => hk (List.mem_cons_of_mem x hmem))
          · exact Or.inr hk
        have := tick_frame_aux catalog sim active _ r k hrec hk2
        rw [this, if_neg hkx]

/-! ### C8: unknown asset ids are silently skipped, no phantom record -/

/-- C8 counterexample: requesting aggregation for the active id
`"ghost-slot"`, which is absent from the catalog, surfaces no violation at
all: the tick completes normally (returns `some`) with the statistics map
unchanged — the unknown id is silently skipped rather than reported. -/
theorem unknownAsset_cex :
    tick [sampleConfig] ["ghost-slot"] (fun _ => []) (fun _ => none)
      = some (fun _ => none) := rfl

/-- C8 amended: aggregation requested for an asset id absent from the catalog
creates no phantom record — the statistics map is unchanged at that id in any
normally-completing tick — but the violation does not surface to the caller:
the id is silently skipped (a tick whose only active id is unknown returns
the map unchanged). -/
theorem unknownAsset_skipped (catalog : List SlotConfig)
    (sim : SlotConfig → List SpinResult) (m : String → Option SlotStats)
    (slotId : String) (h : ∀ cfg ∈ catalog, cfg.id ≠ slotId) :
    tick catalog [slotId] sim m = some m
    ∧ ∀ (active : List String) (r : String → Option SlotStats),
        tick catalog active sim m = some r → r slotId = m slotId := by
  constructor
  · have hfind : catalog.find? (fun s => s.id == slotId) = none := by
      rw [List.find?_eq_none]
      intro cfg hc
      simp only [beq_iff_eq]
      exact h cfg hc
    rw [tick_cons, hfind]
    rfl
  · intro active r hres
    exact tick_frame_aux catalog sim active m r slotId hres (Or.inr h)

/-- C8 witness at concrete inputs. -/
theorem unknownAsset_skipped_witness :
    (∀ cfg ∈ [sampleConfig], cfg.id ≠ "ghost-slot")
    ∧ tick [sampleConfig] ["ghost-slot"] (fun _ => [])
        (fun _ => some sampleStats) = some (fun _ => some sampleStats) :=
  ⟨by decide,
   (unknownAsset_skipped [sampleConfig] (fun _ => []) (fun _ => some sampleStats)
      "ghost-slot" (by decide)).1⟩

/-! ### C10: one tick only touches active, catalog-known asset ids -/

/-- C10: one aggregation tick over the statistics map leaves the full record
of every asset id not in the active set — and of every active id absent from
the catalog — unchanged: the resulting map agrees with the input map at every
such key, so only active, catalog-known ids are modified. -/
theorem tick_frame (catalog : List SlotConfig) (active : List String)
    (sim : SlotConfig → List SpinResult) (m r : String → Option SlotStats)
    (k : String) (hres : tick catalog active sim m = some r)
    (hk : k ∉ active ∨ ∀ cfg ∈ catalog, cfg.id ≠ k) : r k = m k :=
  tick_frame_aux catalog sim active m r k hres hk

/-- C10 witness at concrete inputs. -/
theorem tick_frame_witness :
    tick [] ["book-of-dead"] (fun _ => []) (fun _ => some sampleStats)
        = some (fun _ => some sampleStats)
    ∧ ("razor-shark" ∉ (["book-of-dead"] : List String)
        ∨ ∀ cfg ∈ ([] : List SlotConfig), cfg.id ≠ "razor-shark")
    ∧ (fun _ => some sampleStats) "razor-shark"
        = (fun _ => some sampleStats) "razor-shark" :=
  ⟨rfl, Or.inl (by decide),
   tick_frame [] ["book-of-dead"] (fun _ => []) (fun _ => some sampleStats)
     (fun _ => some sampleStats) "razor-shark" rfl (Or.inl (by decide))⟩

/-! ### C1: the long-run batch payout ratio realises the configured RTP -/

lemma sum_map_range (f : ℕ → ℚ) : ∀ n : ℕ,
    ((List.range n).map f).sum = ∑ k ∈ Finset.range n, f k
  | 0 => by simp
  | n + 1 => by
    rw [List.range_succ, List.map_append, List.sum_append, Finset.sum_range_succ,
      sum_map_range f n]
    simp

lemma simulateSpin_stake (c : SlotConfig) (stake : ℚ) (r : ℚ) :
    (simulateSpin c stake r).stake = stake := by
  by_cases hr : r < c.hitFreq
  · simp [simulateSpin, hr]
  · simp [simulateSpin, hr]

lemma simulateSpin_win (c : SlotConfig) (stake : ℚ) (r : ℚ) :
    (simulateSpin c stake r).win
      = if r < c.hitFreq then stake * (c.rtp / (100 * c.hitFreq)) else 0 := by
  by_cases hr : r < c.hitFreq
  · simp [simulateSpin, hr]
  · simp [simulateSpin, hr]

/-- C1: for a valid configuration (`hitFreq = m/n ∈ (0,1]`, `rtp ∈ (0,100)`)
and a positive stake, a batch that realises the uniform distribution of the
random draw exactly — one spin per point of the uniform `n`-point seed grid —
pays out `(sum of wins / sum of stakes) × 100` exactly equal to `config.rtp`:
the expected per-spin payout ratio of `simulateBatch` is the configured RTP,
which is the limit the long-run sample ratio converges to. -/
theorem simulateBatch_longRun_rtp (c : SlotConfig) (stake : ℚ) (n m : ℕ)
    (hs : 0 < stake) (hm : 0 < m) (hmn : m ≤ n)
    (hf : c.hitFreq = (m : ℚ) / (n : ℚ))
    (_hr1 : 0 < c.rtp) (_hr2 : c.rtp < 100) :
    ((simulateBatch c stake (seedGrid n)).map (fun r => r.win)).sum
      / ((simulateBatch c stake (seedGrid n)).map (fun r => r.stake)).sum * 100
      = c.rtp := by
  have hn : 0 < n := lt_of_lt_of_le hm hmn
  have hnQ : ((n : ℚ)) ≠ 0 := Nat.cast_ne_zero.mpr hn.ne'
  have hmQ : ((m : ℚ)) ≠ 0 := Nat.cast_ne_zero.mpr hm.ne'
  have hsne : stake ≠ 0 := hs.ne'
  have hmap : ∀ f : SpinResult → ℚ,
      (simulateBatch c stake (seedGrid n)).map f
        = (List.range n).map
            (fun k : ℕ => f (simulateSpin c stake ((k : ℚ) / (n : ℚ)))) := by
    intro f
    unfold simulateBatch seedGrid
    rw [List.map_map, List.map_map]
    rfl
  have hstakes : ((simulateBatch c stake (seedGrid n)).map (fun r => r.stake)).sum
      = (n : ℚ) * stake := by
    rw [hmap, sum_map_range]
    have heach : ∀ k ∈ Finset.range n,
        (simulateSpin c stake ((k : ℚ) / (n : ℚ))).stake = stake := by
      intro k _
      exact simulateSpin_stake c stake _
    rw [Finset.sum_congr rfl heach, Finset.sum_const, Finset.card_range, nsmul_eq_mul]
  have hcond : ∀ k : ℕ, ((k : ℚ) / (n : ℚ) < c.hitFreq) ↔ k < m := by
    intro k
    rw [hf, div_lt_div_iff_of_pos_right (by exact_mod_cast hn)]
    exact_mod_cast Iff.rfl
  have hwins : ((simulateBatch c stake (seedGrid n)).map (fun r => r.win)).sum
      = (m : ℚ) * (stake * (c.rtp / (100 * c.hitFreq))) := by
    rw [hmap, sum_map_range]
    have heach : ∀ k ∈ Finset.range n,
        (simulateSpin c stake ((k : ℚ) / (n : ℚ))).win
          = if k < m then stake * (c.rtp / (100 * c.hitFreq)) else 0 := by
      intro k _
      rw [simulateSpin_win]
      by_cases hk : k < m
      · rw [if_pos ((hcond k).mpr hk), if_pos hk]
      · rw [if_neg (fun hc => hk ((hcond k).mp hc)), if_neg hk]
    rw [Finset.sum_congr rfl heach, Finset.sum_ite, Finset.sum_const_zero, add_zero,
      Finset.sum_const, nsmul_eq_mul]
    have hfil : (Finset.range n).filter (fun k => k < m) = Finset.range m := by
      ext k
      simp only [Finset.mem_filter, Finset.mem_range]
      omega
    rw [hfil, Finset.card_range]
  rw [hstakes, hwins, hf]
  have h100m : (100 : ℚ) * ((m : ℚ) / (n : ℚ)) ≠ 0 := by
    apply mul_ne_zero (by norm_num)
    exact div_ne_zero hmQ hnQ
  field_simp
  ring

/-- C1 witness at concrete inputs. -/
theorem simulateBatch_longRun_rtp_witness :
    (0 : ℚ) < 1 ∧ (0 < 1 ∧ 1 ≤ 4)
    ∧ sampleConfig.hitFreq = ((1 : ℕ) : ℚ) / ((4 : ℕ) : ℚ)
    ∧ (0 < sampleConfig.rtp ∧ sampleConfig.rtp < 100)
    ∧ ((simulateBatch sampleConfig 1 (seedGrid 4)).map (fun r => r.win)).sum
        / ((simulateBatch sampleConfig 1 (seedGrid 4)).map (fun r => r.stake)).sum * 100
      = sampleConfig.rtp :=
  ⟨by norm_num, ⟨by norm_num, by norm_num⟩,
   by norm_num [sampleConfig],
   ⟨by norm_num [sampleConfig], by norm_num [sampleConfig]⟩,
   simulateBatch_longRun_rtp sampleConfig 1 4 1 (by norm_num) (by norm_num)
     (by norm_num) (by norm_num [sampleConfig]) (by norm_num [sampleConfig])
     (by norm_num [sampleConfig])⟩

end NeuroSpin
